import Mathlib

/-!
# Verification of `texttemplate.py`

A shallow embedding of the structural text-templating engine
(`src/texttemplate.py`): tokenizer, stack-based parser/builder, node tree
and its evaluation semantics, and the `Template` facade.

Python's mutable namespace dict is modelled as an association list in
which the *last* binding of a key wins (`dict.update` is then plain list
append); mutation is modelled by explicit state passing (`evaluate`
returns the output string together with the namespace after the call).
The embedded expression/statement language (Python `eval`/`exec`
fragments inside tags) is modelled as an injected `Evaluator` capability,
exactly as the spec's section 4.6 prescribes; fragments are kept as their
source strings on the nodes and interpreted through that capability.
-/

/-- Runtime values flowing through a template namespace.  Python values
are untyped; we carry the constructors the engine itself discriminates on
(`NonEscapeValue`, callables for the escape hook) plus base data. -/
inductive Value where
  | int (n : Int)
  | str (s : String)
  | bool (b : Bool)
  | list (xs : List Value)
  | func (f : String → String)
  | nonEscape (v : Value)
  | nonEscapeCtor

/-- Python truthiness of a value (`if eval(codeobj, namespace):`,
`if escape:`). -/
def Value.truthy : Value → Bool
  | .int n => n != 0
  | .str s => s != ""
  | .bool b => b
  | .list xs => !xs.isEmpty
  | .func _ => true
  | .nonEscape _ => true
  | .nonEscapeCtor => true

/-- Python `unicode(obj)` on the values above. -/
def Value.toStr : Value → String
  | .int n => toString n
  | .str s => s
  | .bool b => if b then "True" else "False"
  | .list _ => "<list>"
  | .func _ => "<function>"
  | .nonEscape _ => "<NonEscapeValue instance>"
  | .nonEscapeCtor => "<class NonEscapeValue>"

/-- Applying the escape hook (`escape(unicode(obj))`).  The engine only
ever calls it when the slot is truthy; on a non-callable we return the
argument (the Python original would raise `TypeError`, a path no claim
exercises). -/
def Value.applyFn : Value → String → String
  | .func f, s => f s
  | _, s => s

/-- A namespace: Python's mutable `dict`, as an association list where the
last binding of a key is the current one (so `dict.update` is append). -/
abbrev NS := List (String × Value)

/-- `dict.get`/`dict[k]`: the last binding of `k`, if any. -/
def NS.get (ns : NS) (k : String) : Option Value :=
  ns.foldl (fun acc p => if p.1 = k then some p.2 else acc) none

/-- `dict[k] = v`. -/
def NS.set (ns : NS) (k : String) (v : Value) : NS :=
  ns ++ [(k, v)]

/-- `dict.update(other)`: every binding of `other` overrides. -/
def NS.update (ns other : NS) : NS :=
  ns ++ other

/-- The injected Expression Evaluator capability (spec section 4.6): how the
engine's embedded `eval`/`exec`/generator fragments and text decoding are
interpreted.  `evalIter` models `eval('(locals() for %s)' % expr)`: one
binding set per loop iteration.  `decode` models `str.decode(encoding)`,
`none` when the codec lookup fails (Python `LookupError`). -/
structure Evaluator where
  evalExpr : String → NS → Value
  evalIter : String → NS → List NS
  execStmts : String → NS → NS
  decode : String → String → Option String

/-- Which body `IfBlock.childnodes` currently points at: the `i`-th entry
of `ifnodes_list`, or `elsenodes`.  (Python aliases list objects; the
pointer identity is represented by this tag.) -/
inductive BodyPtr where
  | branch (i : Nat)
  | els
deriving DecidableEq, Repr

/-- The compiled node tree (`Node` and its subclasses).  Expression
fragments are kept as the source strings handed to `_compile`.
`ifBlock` carries `codeobj_list`, `ifnodes_list`, `elsenodes`, and the
current `childnodes` pointer. -/
inductive Node where
  | text (value : String)
  | var (expr : String)
  | block (childnodes : List Node)
  | ifBlock (codeobjList : List String) (ifnodesList : List (List Node))
      (elsenodes : List Node) (cur : BodyPtr)
  | forBlock (codeobj : String) (childnodes : List Node)
  | execBlock (childnodes : List Node)
  | encodingBlock (childnodes : List Node)
deriving Repr

/-- The `sizeOf` of a list is positive (used for the termination measures
of the evaluator below). -/
theorem listSizeOfPos {α : Type} [SizeOf α] (l : List α) : 0 < sizeOf l := by
  cases l <;> simp_arith

/-- `Variable.evaluate`: evaluate the compiled expression, then apply the
`__escape__` hook unless the value is wrapped in `NonEscapeValue`. -/
def Variable.evaluate (ev : Evaluator) (expr : String) (ns : NS) : String :=
  let obj := ev.evalExpr expr ns
  match NS.get ns "__escape__" with
  | none => Value.toStr obj
  | some esc =>
      if Value.truthy esc then
        match obj with
        | .nonEscape v => Value.toStr v
        | _ => Value.applyFn esc (Value.toStr obj)
      else Value.toStr obj

/-- The loop of `ForBlock.evaluate`, abstracted over the body evaluation:
for each binding set, merge it into the namespace (`namespace.update`),
evaluate the body against the updated namespace, and concatenate the
per-iteration results in order, threading the namespace through. -/
def runIters (body : NS → String × NS) : List NS → NS → String × NS
  | [], ns => ("", ns)
  | bs :: bss, ns =>
      let r := body (NS.update ns bs)
      let rs := runIters body bss r.2
      (r.1 ++ rs.1, rs.2)

mutual

/-- `node.evaluate(namespace)`: the produced string together with the
namespace after the call (Python mutates its dict in place, modelled here
by returning the updated namespace).  Per node kind: `Text.evaluate`
returns the stored literal; `Variable.evaluate` interpolates;
`Block.evaluate` concatenates the children; `IfBlock.evaluate` scans its
branches (note it reads every stored field except the `childnodes`
pointer, which it only overwrites — the `cur` argument is dead here;
the else-body evaluation is passed as a thunk, which is sound because
the branch scan leaves the namespace unchanged); `ForBlock.evaluate`
runs the iteration loop over the binding sets of its iteration
expression; `ExecBlock.evaluate` always returns the empty string;
`EncodingBlock` inherits plain `Block.evaluate`. -/
def evalNode (ev : Evaluator) : Node → NS → String × NS
  | .text v, ns => (v, ns)
  | .var e, ns => (Variable.evaluate ev e ns, ns)
  | .block cs, ns => evalList ev cs ns
  | .ifBlock es bodies els _, ns =>
      evalIf ev es bodies (fun _ => evalList ev els ns) ns
  | .forBlock e cs, ns =>
      runIters (fun ns1 => evalList ev cs ns1) (ev.evalIter e ns) ns
  | .execBlock _, ns => ("", ns)
  | .encodingBlock cs, ns => evalList ev cs ns

/-- `Block.evaluate` on a child list: concatenate the children's results
in order, threading the shared namespace left to right. -/
def evalList (ev : Evaluator) : List Node → NS → String × NS
  | [], ns => ("", ns)
  | n :: rest, ns =>
      let r := evalNode ev n ns
      let rs := evalList ev rest r.2
      (r.1 ++ rs.1, rs.2)

/-- The branch scan of `IfBlock.evaluate`: walk `zip(codeobj_list,
ifnodes_list)` in declaration order; on the first truthy condition
evaluate that branch's body; if none is truthy (or the zip is exhausted)
evaluate the else-body. -/
def evalIf (ev : Evaluator) : List String → List (List Node) →
    (Unit → String × NS) → NS → String × NS
  | [], _, elsf, _ => elsf ()
  | _ :: _, [], elsf, _ => elsf ()
  | e :: es, b :: bodies, elsf, ns =>
      if (ev.evalExpr e ns).truthy then evalList ev b ns
      else evalIf ev es bodies elsf ns

end

/-! ## Tokenizer (`tokenize`, `rx_stags`, `Text.rx_escape`) -/

/-- Python `str.strip()`: remove leading and trailing whitespace.
(Defined over the character list so that it computes by kernel
reduction.) -/
def pyStrip (s : String) : String :=
  ((s.toList.dropWhile Char.isWhitespace).reverse.dropWhile
    Char.isWhitespace).reverse.asString

/-- The three tag families, in the order `tagset` lists them:
`(name, opening marker, closing marker)`. -/
def tagset : List (String × String × String) :=
  [("block", "\x7b%", "%\x7d"), ("variable", "\x7b\x7b", "\x7d\x7d"), ("comment", "\x7b#", "#\x7d")]

/-- `data.startswith(pat, pos)`. -/
def matchesAt (data pat : String) (pos : Nat) : Bool :=
  pat.toList.isPrefixOf (data.toList.drop pos)

/-- `data[a:b]` (character positions, like Python slicing). -/
def strSub (data : String) (a b : Nat) : String :=
  (((data.toList).drop a).take (b - a)).asString

/-- Scan the suffix `cs` (which starts at position `i` of the whole text)
for the first position where `pat` occurs. -/
def findSubAux (pat : List Char) : List Char → Nat → Option Nat
  | [], i => if pat.isPrefixOf [] then some i else none
  | cs@(_ :: rest), i =>
      if pat.isPrefixOf cs then some i else findSubAux pat rest (i + 1)

/-- `data.index(pat, start)`: position of the first occurrence of `pat` at
or after `start`, `none` when there is none (Python raises `ValueError`). -/
def indexFrom (data pat : String) (start : Nat) : Option Nat :=
  findSubAux pat.toList (data.toList.drop start) start

/-- Does one of the three tag opening markers start here?  (The body of
the regular expression `rx_stags`.) -/
def stagPrefix (cs : List Char) : Bool :=
  "\x7b%".toList.isPrefixOf cs || "\x7b\x7b".toList.isPrefixOf cs ||
    "\x7b#".toList.isPrefixOf cs

def searchStagsAux : List Char → Nat → Option Nat
  | [], _ => none
  | cs@(_ :: rest), i =>
      if stagPrefix cs then some i else searchStagsAux rest (i + 1)

/-- `rx_stags.search(data, pos)`: position of the nearest tag opening
marker at or after `pos`. -/
def searchStags (data : String) (pos : Nat) : Option Nat :=
  searchStagsAux (data.toList.drop pos) pos

/-- Errors and exceptions of the engine.  `templateSyntaxError` is
`TemplateSyntaxError` (with its optional position argument),
`textTemplateError` is `TextTemplateError`, `lookupError` is the Python
`LookupError` escaping from `str.decode` on an unknown encoding,
`indexError` is `nodestack[-1]`/`pop()` on an empty stack, and `fuelOut`
marks exhaustion of the explicit recursion fuel of the model (unreachable
for the runs the theorems below talk about). -/
inductive TErr where
  | templateSyntaxError (msg : String) (pos : Option Nat)
  | textTemplateError (msg : String)
  | lookupError (enc : String)
  | indexError
  | fuelOut
deriving DecidableEq, Repr

/-- One step of `tokenize` for a tag family whose opening marker matched:
find the closing marker (searching, as the source does, from `pos` — the
*start* of the opening marker), slice the expression strictly between the
markers, strip it, and advance past the closing marker.  No closing
marker anywhere is `TemplateSyntaxError('invalid syntax', len(data))`. -/
def tagToken (data : String) (pos : Nat) (name stag etag : String) :
    Except TErr (String × String × Nat) :=
  match indexFrom data etag pos with
  | none => .error (.templateSyntaxError "invalid syntax" (some data.length))
  | some idx =>
      let next := idx + etag.length
      .ok (name, pyStrip (strSub data (pos + stag.length) (next - etag.length)),
        next)

/-- One step of `tokenize` at position `pos`: try the three tag families
in `tagset` order; absent any opening marker here, emit the text up to
the nearest following opening marker (or end of input) without stripping.
Returns `(token name, expression text, new position)`. -/
def tokStep (data : String) (pos : Nat) : Except TErr (String × String × Nat) :=
  if matchesAt data "\x7b%" pos then tagToken data pos "block" "\x7b%" "%\x7d"
  else if matchesAt data "\x7b\x7b" pos then tagToken data pos "variable" "\x7b\x7b" "\x7d\x7d"
  else if matchesAt data "\x7b#" pos then tagToken data pos "comment" "\x7b#" "#\x7d"
  else
    let next :=
      match searchStags data pos with
      | some i => i
      | none => data.length
    .ok ("text", strSub data pos next, next)

/-- The substitution done by `Text.rx_escape.sub('', data)`: at a line
start, a run of blanks followed by a backslash not followed by a newline
is removed; anywhere, a backslash followed by a newline is removed
(line continuation).  `atStart` records whether the current position is
at the start of a line of the original text (`^` under `re.M`).  The
recursion consumes at least one character per step, so the fuel
`length + 1` supplied by `stripEscapes` never runs out. -/
def stripEscAux : Nat → List Char → Bool → List Char
  | 0, cs, _ => cs
  | fuel + 1, cs, atStart =>
    match cs with
    | [] => []
    | c :: rest =>
      if atStart then
        let ws := cs.takeWhile (fun d => d == ' ' || d == '\t')
        match cs.drop ws.length with
        | '\\' :: '\n' :: t2 => ws ++ stripEscAux fuel t2 true
        | '\\' :: t => stripEscAux fuel t false
        | _ => c :: stripEscAux fuel rest (c == '\n')
      else
        match rest with
        | '\n' :: t =>
            if c = '\\' then stripEscAux fuel t true
            else c :: stripEscAux fuel rest (c == '\n')
        | _ => c :: stripEscAux fuel rest (c == '\n')

/-- `Text.__init__`: the literal value with the escapes above stripped. -/
def stripEscapes (s : String) : String :=
  (stripEscAux (s.toList.length + 1) s.toList true).asString

/-! ## Parser / Builder (`TemplateHandler`, `parse`, `Template`) -/

/-- `expr.split(None, 1)`: the first whitespace-delimited word and the
remainder (with the separating whitespace run consumed); `none` when the
string holds no word at all. -/
def splitFirstWord (s : String) : Option (String × String) :=
  let cl := s.toList.dropWhile Char.isWhitespace
  match cl with
  | [] => none
  | _ =>
      let w := cl.takeWhile (fun c => !c.isWhitespace)
      let rest := (cl.drop w.length).dropWhile Char.isWhitespace
      some (w.asString, rest.asString)

/-- What kind of open block a parser stack entry is building.  For a
Conditional: `codeobjList` are the branch conditions compiled so far,
`doneBodies` the bodies of the branches already closed by a later
`elif`/`else`, and `inElse` whether `childnodes` currently aliases
`elsenodes` (an `else` directive has been taken). -/
inductive FrameKind where
  | ifK (codeobjList : List String) (doneBodies : List (List Node))
      (inElse : Bool)
  | forK (codeobj : String)
  | execK
  | encodingK
deriving Repr

/-- One open block on `nodestack`: its kind and the children accumulated
so far in its currently-active body. -/
structure Frame where
  kind : FrameKind
  children : List Node
deriving Repr

/-- Closing a frame yields the finished node.  For a Conditional the
`childnodes` pointer is left where parsing put it: at the last branch
body, or at `elsenodes` if an `else` was taken. -/
def Frame.toNode : Frame → Node
  | ⟨.ifK es done false, cs⟩ =>
      .ifBlock es (done ++ [cs]) [] (.branch done.length)
  | ⟨.ifK es done true, cs⟩ => .ifBlock es done cs .els
  | ⟨.forK e, cs⟩ => .forBlock e cs
  | ⟨.execK, cs⟩ => .execBlock cs
  | ⟨.encodingK, cs⟩ => .encodingBlock cs

/-- The `TemplateHandler` state: the Template root's accumulated children
and namespace and encoding, plus `nodestack`.  `stack` holds the open
frames above the root, topmost first; `rootOnStack` records whether the
root itself is still on `nodestack` (a stray top-level `end` pops it). -/
structure HState where
  rootChildren : List Node
  rootNamespace : NS
  encoding : Option String
  stack : List Frame
  rootOnStack : Bool

/-- `TemplateHandler.__init__`: `nodestack = [root]`, empty root. -/
def HState.init : HState := ⟨[], [], none, [], true⟩

/-- `len(nodestack)`. -/
def HState.stackLen (st : HState) : Nat :=
  st.stack.length + (if st.rootOnStack then 1 else 0)

/-- `self.nodestack[-1].appendchild(node)`: append to the top frame's
active body, or to the root when it is the stack top; `IndexError` when
the stack is empty. -/
def HState.append (st : HState) (n : Node) : Except TErr HState :=
  match st.stack with
  | f :: rest => .ok { st with stack := { f with children := f.children ++ [n] } :: rest }
  | [] =>
      if st.rootOnStack then .ok { st with rootChildren := st.rootChildren ++ [n] }
      else .error .indexError

/-- `not self.root.encoding`: Python falsiness of the encoding slot
(`None`, or the empty string). -/
def encodingFalsy : Option String → Bool
  | none => true
  | some s => s == ""

/-- `ExecBlock.execute(namespace)`: evaluate the block body as a `Block`
to obtain the statement text, then run it against the same namespace. -/
def ExecBlock.execute (ev : Evaluator) (children : List Node) (ns : NS) : NS :=
  let r := evalList ev children ns
  ev.execStmts r.1 r.2

/-- Result of one handler call: the new state, possibly carrying the
`EncodingDetected` signal raised on closing the first encoding block. -/
inductive HandleRes where
  | normal (st : HState)
  | detected (st : HState) (enc : String)

/-- `TemplateHandler.handle_block`: dispatch on the directive keyword.
`end` pops the stack (running an `ExecBlock` against the root namespace,
and recording/raising for the first `EncodingBlock`); `if`/`for`/`exec`/
`encoding` push a new frame; `elif`/`else` mutate a Conditional top
(`TemplateSyntaxError` when the stack top has no such method, i.e. is not
an `IfBlock`; `TextTemplateError` when its else-body was already
entered); anything else is an unknown tag name. -/
def handleBlock (ev : Evaluator) (st : HState) (expr : String) :
    Except TErr HandleRes :=
  match splitFirstWord expr with
  | none => .error (.templateSyntaxError "invalid syntax" none)
  | some (tagname, params) =>
    if tagname = "end" then
      match st.stack with
      | [] =>
          if st.rootOnStack then .ok (.normal { st with rootOnStack := false })
          else .error .indexError
      | f :: rest =>
          match HState.append { st with stack := rest } f.toNode with
          | .error e => .error e
          | .ok st1 =>
              let st2 :=
                match f.kind with
                | .execK =>
                    { st1 with rootNamespace :=
                        ExecBlock.execute ev f.children st1.rootNamespace }
                | _ => st1
              if f.kind matches .encodingK then
                if encodingFalsy st2.encoding then
                  let enc := pyStrip (evalList ev f.children []).1
                  .ok (.detected { st2 with encoding := some enc } enc)
                else .ok (.normal st2)
              else .ok (.normal st2)
    else if tagname = "if" then
      .ok (.normal { st with stack :=
        ⟨.ifK [pyStrip params] [] false, []⟩ :: st.stack })
    else if tagname = "elif" then
      match st.stack with
      | ⟨.ifK es done inElse, cs⟩ :: rest =>
          if inElse then .error (.textTemplateError "else_() has already been called")
          else .ok (.normal { st with stack :=
            ⟨.ifK (es ++ [pyStrip params]) (done ++ [cs]) false, []⟩ :: rest })
      | _ :: _ => .error (.templateSyntaxError "invalid syntax" none)
      | [] =>
          if st.rootOnStack then .error (.templateSyntaxError "invalid syntax" none)
          else .error .indexError
    else if tagname = "else" then
      match st.stack with
      | ⟨.ifK es done inElse, cs⟩ :: rest =>
          if inElse then .error (.textTemplateError "else_() has already been called")
          else .ok (.normal { st with stack :=
            ⟨.ifK es (done ++ [cs]) true, []⟩ :: rest })
      | _ :: _ => .error (.templateSyntaxError "invalid syntax" none)
      | [] =>
          if st.rootOnStack then .error (.templateSyntaxError "invalid syntax" none)
          else .error .indexError
    else if tagname = "for" then
      .ok (.normal { st with stack := ⟨.forK params, []⟩ :: st.stack })
    else if tagname = "exec" then
      .ok (.normal { st with stack := ⟨.execK, []⟩ :: st.stack })
    else if tagname = "encoding" then
      .ok (.normal { st with stack := ⟨.encodingK, []⟩ :: st.stack })
    else .error (.templateSyntaxError ("invalid tag name " ++ tagname) none)

/-- `parse`'s per-token dispatch to `handle_text` / `handle_variable` /
`handle_comment` / `handle_block`. -/
def handleToken (ev : Evaluator) (st : HState) (name expr : String) :
    Except TErr HandleRes :=
  if name = "block" then handleBlock ev st expr
  else if name = "variable" then
    match st.append (.var expr) with
    | .error e => .error e
    | .ok st' => .ok (.normal st')
  else if name = "comment" then .ok (.normal st)
  else
    match st.append (.text (stripEscapes expr)) with
    | .error e => .error e
    | .ok st' => .ok (.normal st')

/-- Outcome of driving the token loop of `parse` to the end of the data:
either the tokens ran out, or `EncodingDetected` was raised at a token
ending at `endPos`. -/
inductive LoopRes where
  | done (st : HState)
  | det (st : HState) (endPos : Nat) (enc : String)

/-- The `for name, start, end, expr in tokenize(data, pos)` loop of
`parse`.  The fuel only bounds the number of tokens; `data.length + 1`
always suffices because every token advances the position. -/
def parseLoop (ev : Evaluator) (data : String) :
    Nat → Nat → HState → Except TErr LoopRes
  | 0, _, _ => .error .fuelOut
  | fuel + 1, pos, st =>
      if pos < data.length then
        match tokStep data pos with
        | .error e => .error e
        | .ok (name, expr, next) =>
            match handleToken ev st name expr with
            | .error e => .error e
            | .ok (.normal st') => parseLoop ev data fuel next st'
            | .ok (.detected st' enc) => .ok (.det st' next enc)
      else .ok (.done st)

/-- `parse(data, handler, pos)` with its `EncodingDetected` handler: on
the signal, re-decode the already-consumed head and the remaining tail
under the declared encoding and restart from the equivalent position in
the re-decoded text.  A failing decode is the Python `LookupError`.  The
outer fuel bounds the number of restarts. -/
def parseGo (ev : Evaluator) : Nat → String → Nat → HState → Except TErr HState
  | 0, _, _, _ => .error .fuelOut
  | fuel + 1, data, pos, st =>
      match parseLoop ev data (data.length + 1) pos st with
      | .error e => .error e
      | .ok (.done st') => .ok st'
      | .ok (.det st' endPos enc) =>
          match ev.decode enc (strSub data 0 endPos),
              ev.decode enc (strSub data endPos data.length) with
          | some hd, some tl => parseGo ev fuel (hd ++ tl) hd.length st'
          | _, _ => .error (.lookupError enc)

/-- `parse(code, TemplateHandler(root))` as called by `Template.__init__`. -/
def parseTop (ev : Evaluator) (code : String) : Except TErr HState :=
  parseGo ev (code.length + 1) code 0 HState.init

/-- `TemplateHandler.get_result`: the stack must again hold exactly the
root, otherwise `TemplateSyntaxError` — note that `Template.__init__`
in the source never calls this. -/
def getResult (st : HState) : Except TErr Unit :=
  if st.stackLen ≠ 1 then .error (.templateSyntaxError "invalid syntax" none)
  else .ok ()

/-- Fold the still-open frames into their parents: each open node was
already appended to its parent when its opening tag was handled, so the
tree Python is left with at end of input contains every open frame,
closed structurally in place. -/
def collapseFrames (f : Frame) : List Frame → Node
  | [] => f.toNode
  | g :: rest => collapseFrames ⟨g.kind, g.children ++ [f.toNode]⟩ rest

/-- The root's `childnodes` at the end of parsing, unfinished open blocks
included (they sit in the tree from the moment their opening tag was
parsed). -/
def HState.rootResult (st : HState) : List Node :=
  match st.stack with
  | [] => st.rootChildren
  | f :: rest => st.rootChildren ++ [collapseFrames f rest]

/-- The compiled artifact: `Template`'s own data (root children, captured
default namespace, optional detected encoding). -/
structure Tmpl where
  childnodes : List Node
  defaultNamespace : NS
  encoding : Option String

/-- `Template.__init__(code)`: run the parse, then publish the
`__nonescape__` constructor when an `__escape__` hook was installed by a
compile-time `exec`.  Note: `get_result` is never consulted. -/
def Template.init (ev : Evaluator) (code : String) : Except TErr Tmpl :=
  match parseTop ev code with
  | .error e => .error e
  | .ok st =>
      let ns := st.rootNamespace
      let ns :=
        if (NS.get ns "__escape__").isSome then
          NS.set ns "__nonescape__" .nonEscapeCtor
        else ns
      .ok ⟨st.rootResult, ns, st.encoding⟩

/-- `Template.evaluate(namespace, **kwds)`: copy the default namespace,
overlay the caller namespace, overlay the keyword arguments, and run the
root block against the merged copy.  (Updating with an empty mapping is
the identity, so the `if namespace:` / `if kwds:` guards need no separate
modelling.)  Returns the rendered string together with the final state of
the per-render namespace copy. -/
def Template.evaluateFull (ev : Evaluator) (t : Tmpl) (ns kwds : NS) :
    String × NS :=
  let nsglobal := NS.update (NS.update t.defaultNamespace ns) kwds
  evalList ev t.childnodes nsglobal

/-- The rendered string of `Template.evaluate` (Python returns only the
string; the namespace copy is dropped). -/
def Template.evaluate (ev : Evaluator) (t : Tmpl) (ns kwds : NS) : String :=
  (Template.evaluateFull ev t ns kwds).1

/-- A small concrete Expression Evaluator used by the concrete templates
in the theorems below: expressions are plain name lookups (missing names
evaluate to `0`), the iteration fragment `x in [1,2,3]` yields its three
binding sets, the statement fragment `ns_var = 5` performs that
assignment, and every nonempty encoding name decodes as the identity
(the empty name is unknown to the codec lookup, as in Python). -/
def testEv : Evaluator where
  evalExpr := fun src ns =>
    match NS.get ns src with
    | some v => v
    | none => .int 0
  evalIter := fun src _ =>
    if src = "x in [1,2,3]" then
      [[("x", .int 1)], [("x", .int 2)], [("x", .int 3)]]
    else []
  execStmts := fun src ns =>
    if src = "ns_var = 5" then NS.set ns "ns_var" (.int 5) else ns
  decode := fun enc s => if enc = "" then none else some s

/-! ## Supporting definitions and lemmas -/

/-- The `for codeobj, childnodes in zip(...)` scan of `IfBlock.evaluate`,
with the running branch index made explicit: the index and body of the
first branch (at or after index `i`) whose condition is truthy. -/
def IfBlock.selectB (ev : Evaluator) :
    List String → List (List Node) → NS → Nat → Option (Nat × List Node)
  | [], _, _, _ => none
  | _ :: _, [], _, _ => none
  | e :: es, b :: bodies, ns, i =>
      if (ev.evalExpr e ns).truthy then some (i, b)
      else IfBlock.selectB ev es bodies ns (i + 1)

/-- `IfBlock.evaluate` with its node-state effect made explicit: besides
the output string and updated namespace it returns the value the method
stores into the node's `childnodes` field before returning
(`self.childnodes = childnodes` on the first truthy branch,
`self.childnodes = self.elsenodes` otherwise). -/
def IfBlock.evaluateStep (ev : Evaluator) (es : List String)
    (bodies : List (List Node)) (els : List Node) (ns : NS) :
    String × NS × BodyPtr :=
  match IfBlock.selectB ev es bodies ns 0 with
  | some (i, b) => let r := evalList ev b ns; (r.1, r.2, .branch i)
  | none => let r := evalList ev els ns; (r.1, r.2, .els)

mutual

/-- Forget every Conditional's `childnodes` pointer (the only node field
the render phase writes): two nodes with the same erasure differ at most
in branch pointers left behind by earlier evaluations. -/
def eraseN : Node → Node
  | .text v => .text v
  | .var e => .var e
  | .block cs => .block (eraseL cs)
  | .ifBlock es bodies els _ => .ifBlock es (eraseB bodies) (eraseL els) .els
  | .forBlock e cs => .forBlock e (eraseL cs)
  | .execBlock cs => .execBlock (eraseL cs)
  | .encodingBlock cs => .encodingBlock (eraseL cs)

def eraseL : List Node → List Node
  | [] => []
  | n :: rest => eraseN n :: eraseL rest

def eraseB : List (List Node) → List (List Node)
  | [] => []
  | b :: rest => eraseL b :: eraseB rest

end

theorem runIters_congr {body1 body2 : NS → String × NS}
    (h : ∀ ns, body1 ns = body2 ns) :
    ∀ (bss : List NS) (ns : NS),
      runIters body1 bss ns = runIters body2 bss ns := by
  intro bss
  induction bss with
  | nil => intro ns; rfl
  | cons bs bss ih => intro ns; simp only [runIters, h, ih]

mutual

/-- Evaluation only reads the erasure: the branch pointers do not affect
the output or the namespace effects. -/
theorem evalNode_erase (ev : Evaluator) (n : Node) :
    ∀ ns : NS, evalNode ev (eraseN n) ns = evalNode ev n ns := by
  intro ns
  match n with
  | .text v => rfl
  | .var e => rfl
  | .block cs => simp only [eraseN, evalNode, evalList_erase ev cs]
  | .ifBlock es bodies els cur =>
      simp only [eraseN, evalNode]
      exact evalIf_erase ev es bodies
        (fun _ => evalList ev (eraseL els) ns) (fun _ => evalList ev els ns)
        (fun _ => evalList_erase ev els ns) ns
  | .forBlock e cs =>
      simp only [eraseN, evalNode]
      exact runIters_congr (fun ns1 => evalList_erase ev cs ns1) (ev.evalIter e ns) ns
  | .execBlock cs => rfl
  | .encodingBlock cs => simp only [eraseN, evalNode, evalList_erase ev cs]

theorem evalList_erase (ev : Evaluator) (l : List Node) :
    ∀ ns : NS, evalList ev (eraseL l) ns = evalList ev l ns := by
  intro ns
  match l with
  | [] => rfl
  | n :: rest =>
      simp only [eraseL, evalList, evalNode_erase ev n, evalList_erase ev rest]

theorem evalIf_erase (ev : Evaluator) (es : List String)
    (bodies : List (List Node)) (elsf1 elsf2 : Unit → String × NS)
    (hels : ∀ u : Unit, elsf1 u = elsf2 u) :
    ∀ ns : NS, evalIf ev es (eraseB bodies) elsf1 ns = evalIf ev es bodies elsf2 ns := by
  intro ns
  match es, bodies with
  | [], _ => simp only [evalIf]; exact hels ()
  | e :: es', [] => simp only [eraseB, evalIf]; exact hels ()
  | e :: es', b :: bodies' =>
      simp only [eraseB, evalIf]
      by_cases hc : (ev.evalExpr e ns).truthy
      · simp only [hc, if_true, evalList_erase ev b]
      · simp only [hc, if_false]
        exact evalIf_erase ev es' bodies' elsf1 elsf2 hels ns

end

/-- `match a with some v => some v | none => b`: preference for the first
operand, used to state dict-update lookup facts. -/
def optOr (a b : Option Value) : Option Value :=
  match a with
  | some _ => a
  | none => b

theorem NS.get_foldl_eq (k : String) (b : NS) :
    ∀ i, List.foldl (fun acc p => if p.1 = k then some p.2 else acc) i b =
      optOr (NS.get b k) i := by
  induction b with
  | nil => intro i; simp [NS.get, optOr]
  | cons p rest ih =>
      intro i
      show List.foldl _ (if p.1 = k then some p.2 else i) rest = _
      rw [ih]
      show _ = optOr (List.foldl _ (if p.1 = k then some p.2 else none) rest) i
      rw [ih]
      by_cases hp : p.1 = k <;>
        · simp only [hp, if_true, if_false]
          cases NS.get rest k <;> simp [optOr]

/-- Lookup in an updated dict: a binding of `k` in `b` wins over any in
`a`; absent one, the lookup falls back to `a`. -/
theorem NS.get_append (a b : NS) (k : String) :
    NS.get (a ++ b) k = optOr (NS.get b k) (NS.get a k) := by
  show List.foldl _ none (a ++ b) = _
  rw [List.foldl_append]
  exact NS.get_foldl_eq k b _

/-- The branch scan dispatches exactly like the explicit selection loop:
the body of the first truthy branch is evaluated, else the else-thunk
(for any starting index, which the scan only threads through). -/
theorem evalIf_eq_selectB (ev : Evaluator) (ns : NS) :
    ∀ (es : List String) (bodies : List (List Node))
      (elsf : Unit → String × NS) (k : Nat),
      evalIf ev es bodies elsf ns =
        (match IfBlock.selectB ev es bodies ns k with
         | some (_, b) => evalList ev b ns
         | none => elsf ()) := by
  intro es
  induction es with
  | nil => intro bodies elsf k; cases bodies <;> rfl
  | cons e es ih =>
      intro bodies elsf k
      cases bodies with
      | nil => rfl
      | cons b bodies =>
          simp only [evalIf, IfBlock.selectB]
          by_cases hc : (ev.evalExpr e ns).truthy
          · simp only [hc, if_true]
          · simp only [hc, if_false]
            exact ih bodies elsf (k + 1)

/-- `appendchild` touches only the tree under construction: namespace,
encoding and the stack skeleton's bookkeeping of the target are the only
things it can change — never the root namespace or the encoding. -/
theorem HState.append_preserves (st : HState) (n : Node) (st' : HState)
    (h : HState.append st n = .ok st') :
    st'.rootNamespace = st.rootNamespace ∧ st'.encoding = st.encoding ∧
      st'.rootOnStack = st.rootOnStack := by
  unfold HState.append at h
  match hst : st.stack with
  | f :: rest =>
      rw [hst] at h
      cases h
      exact ⟨rfl, rfl, rfl⟩
  | [] =>
      rw [hst] at h
      by_cases hr : st.rootOnStack
      · simp only [hr, if_true] at h
        cases h
        exact ⟨rfl, rfl, hr.symm⟩
      · simp only [hr, if_false] at h
        cases h

/-! ## Claims -/

set_option maxHeartbeats 4000000 in
/-- C1: the claim demands that `{% if true %}no end` fail compilation
with a syntax error and produce no partial Template.  The code violates
it: `Template.__init__` runs `parse` but never calls
`TemplateHandler.get_result`, so parsing `{% if true %}no end` ends with
two entries on the node stack (`get_result` *would* raise
`TemplateSyntaxError 'invalid syntax'` on that state), yet a Template is
produced whose root contains the unfinished conditional, and it even
renders. -/
theorem c1_unterminated_accepted :
    (parseTop testEv "\x7b% if true %\x7dno end").map HState.stackLen = .ok 2 ∧
    (parseTop testEv "\x7b% if true %\x7dno end").map getResult =
      .ok (.error (.templateSyntaxError "invalid syntax" none)) ∧
    Template.init testEv "\x7b% if true %\x7dno end" =
      .ok ⟨[.ifBlock ["true"] [[.text "no end"]] [] (.branch 0)], [], none⟩ ∧
    (Template.init testEv "\x7b% if true %\x7dno end").map
      (fun t => Template.evaluate testEv t [] []) = .ok "" :=
  ⟨rfl, rfl, rfl, rfl⟩

/-- C2 counterexample: the claim says evaluating a Conditional leaves all
its stored fields unchanged.  It does not: for the conditional
`{% if c %}y` (whose `childnodes` field points at branch body 0, as the
parser leaves it) evaluated under a namespace where `c` is falsy,
`IfBlock.evaluate` stores the else pointer into the `childnodes` field,
so the field no longer holds its prior value. -/
theorem c2_counterexample :
    (IfBlock.evaluateStep testEv ["c"] [[Node.text "y"]] []
        [("c", Value.int 0)]).2.2 ≠ BodyPtr.branch 0 := by decide

/-- C2 amended: branch selection does determine the output and namespace
purely (the stored pointer is never read — `evaluate` agrees with the
pointer-free evaluation for every prior pointer value), but the selection
*is* recorded on the node: `evaluate` writes the first truthy branch's
pointer (or the else pointer) into the `childnodes` field. -/
theorem c2_selection_stored (ev : Evaluator) (es : List String)
    (bodies : List (List Node)) (els : List Node) (cur : BodyPtr) (ns : NS) :
    (((IfBlock.evaluateStep ev es bodies els ns).1,
        (IfBlock.evaluateStep ev es bodies els ns).2.1) =
      evalNode ev (.ifBlock es bodies els cur) ns) ∧
    ((IfBlock.evaluateStep ev es bodies els ns).2.2 =
      match IfBlock.selectB ev es bodies ns 0 with
      | some (i, _) => BodyPtr.branch i
      | none => BodyPtr.els) := by
  constructor
  · show _ = evalIf ev es bodies _ ns
    rw [evalIf_eq_selectB ev ns es bodies _ 0]
    unfold IfBlock.evaluateStep
    cases IfBlock.selectB ev es bodies ns 0 with
    | none => rfl
    | some p => rfl
  · unfold IfBlock.evaluateStep
    cases IfBlock.selectB ev es bodies ns 0 with
    | none => rfl
    | some p => rfl

set_option maxHeartbeats 4000000 in
/-- C4: an `exec` block's body runs when its closing `end` is parsed,
against the Template's default namespace, before any render: compiling
`{% exec %}ns_var = 5{% end %}{{ ns_var }}` already leaves `ns_var = 5`
in the default namespace; at render time `ExecBlock.evaluate` contributes
the empty string for every body and namespace; and the example renders
`5`. -/
theorem c4_exec_compile_time :
    (∀ (ev : Evaluator) (st : HState) (f : Frame) (rest : List Frame)
        (r : HandleRes),
        st.stack = f :: rest → f.kind = .execK →
        handleBlock ev st "end" = .ok r →
        ∃ st', r = .normal st' ∧
          st'.rootNamespace = ExecBlock.execute ev f.children st.rootNamespace) ∧
    (∀ (ev : Evaluator) (cs : List Node) (ns : NS),
        evalNode ev (.execBlock cs) ns = ("", ns)) ∧
    Template.init testEv "\x7b% exec %\x7dns_var = 5\x7b% end %\x7d\x7b\x7b ns_var \x7d\x7d" =
      .ok ⟨[.execBlock [.text "ns_var = 5"], .var "ns_var"],
        [("ns_var", .int 5)], none⟩ ∧
    (Template.init testEv "\x7b% exec %\x7dns_var = 5\x7b% end %\x7d\x7b\x7b ns_var \x7d\x7d").map
      (fun t => Template.evaluate testEv t [] []) = .ok "5" := by
  refine ⟨?_, fun _ _ _ => rfl, rfl, rfl⟩
  intro ev st f rest r hst hk h
  unfold handleBlock at h
  rw [show splitFirstWord "end" = some ("end", "") from rfl] at h
  simp only [if_true, hst] at h
  match happ : HState.append { st with stack := rest } f.toNode with
  | .error e => rw [happ] at h; cases h
  | .ok st1 =>
      rw [happ] at h
      rw [hk] at h
      simp only at h
      cases h
      refine ⟨_, rfl, ?_⟩
      have hp := HState.append_preserves _ _ _ happ
      simp only [hp.1]

set_option maxHeartbeats 4000000 in
/-- C5: `ForBlock.evaluate` merges each binding set into the shared
namespace before evaluating the body against it, concatenates the
per-iteration results in order while threading the namespace through
(splitting the binding sets anywhere splits output and namespace
accordingly), and the bindings persist after the loop: the claim's
example renders `1233` — the final `{{x}}` outside the loop sees `3`. -/
theorem c5_loop_persistence :
    (∀ (ev : Evaluator) (e : String) (cs : List Node) (ns : NS),
        evalNode ev (.forBlock e cs) ns =
          runIters (fun ns1 => evalList ev cs ns1) (ev.evalIter e ns) ns) ∧
    (∀ (body : NS → String × NS) (bss1 bss2 : List NS) (ns : NS),
        runIters body (bss1 ++ bss2) ns =
          ((runIters body bss1 ns).1 ++
              (runIters body bss2 (runIters body bss1 ns).2).1,
            (runIters body bss2 (runIters body bss1 ns).2).2)) ∧
    (∀ (body : NS → String × NS) (bs : NS) (ns : NS),
        runIters body [bs] ns =
          ((body (NS.update ns bs)).1, (body (NS.update ns bs)).2)) ∧
    (Template.init testEv "\x7b% for x in [1,2,3] %\x7d\x7b\x7bx\x7d\x7d\x7b% end %\x7d\x7b\x7bx\x7d\x7d").map
      (fun t => Template.evaluate testEv t [] []) = .ok "1233" := by
  refine ⟨fun _ _ _ _ => rfl, ?_, ?_, by rfl⟩
  · intro body bss1 bss2
    induction bss1 with
    | nil => intro ns; simp [runIters]
    | cons bs bss1 ih =>
        intro ns
        simp only [List.cons_append, List.append_eq, runIters, ih, String.append_assoc]
  · intro body bs ns
    simp [runIters]

set_option maxHeartbeats 4000000 in
/-- C9 counterexample: after a Conditional's else-body has been entered,
a second `else` is indeed rejected at compile time, but with
`TextTemplateError('else_() has already been called')` — not an error of
the `TemplateSyntaxError` kind the claim (and the spec's error taxonomy)
assigns to malformed block nesting. -/
theorem c9_counterexample :
    Template.init testEv "\x7b% if a %\x7d\x7b% else %\x7d\x7b% else %\x7d" =
      .error (.textTemplateError "else_() has already been called") := rfl

/-- C8 counterexample: in `{%}` the block opening marker `{%` matches at
position 0 and the closing marker `%}` occurs nowhere at or after
position 2 (the end of the opening marker) — the input is only 3
characters long — so under the claim the tokenizer must raise a fatal
syntax error.  Instead `tokenize` searches for `%}` from position 0, the
*start* of the opening marker, finds the overlapping occurrence at
position 1, and happily emits a block token with an empty expression. -/
theorem c8_counterexample :
    matchesAt "\x7b%\x7d" "\x7b%" 0 = true ∧
    matchesAt "\x7b%\x7d" "%\x7d" 1 = true ∧
    matchesAt "\x7b%\x7d" "%\x7d" 2 = false ∧
    matchesAt "\x7b%\x7d" "%\x7d" 3 = false ∧
    "\x7b%\x7d".length = 3 ∧
    tokStep "\x7b%\x7d" 0 = .ok ("block", "", 3) :=
  ⟨rfl, rfl, rfl, rfl, rfl, rfl⟩

theorem evalIf_first_truthy (ev : Evaluator) (ns : NS) :
    ∀ (es : List String) (bodies : List (List Node))
      (elsf : Unit → String × NS) (i : Nat)
      (hi1 : i < es.length) (hi2 : i < bodies.length),
      (∀ j (hj : j < i), (ev.evalExpr (es.get ⟨j, by omega⟩) ns).truthy = false) →
      (ev.evalExpr (es.get ⟨i, hi1⟩) ns).truthy = true →
      evalIf ev es bodies elsf ns = evalList ev (bodies.get ⟨i, hi2⟩) ns := by
  intro es
  induction es with
  | nil => intro bodies elsf i hi1; simp at hi1
  | cons e es ih =>
      intro bodies elsf i hi1 hi2 hprev hi
      cases bodies with
      | nil => simp at hi2
      | cons b bodies =>
          cases i with
          | zero => simp only [List.get] at hi ⊢; simp only [evalIf, hi, if_true]
          | succ i =>
              have h0 : (ev.evalExpr e ns).truthy = false := hprev 0 (by omega)
              simp only [evalIf, h0, Bool.false_eq_true, if_false]
              exact ih bodies elsf i (by simpa using hi1) (by simpa using hi2)
                (fun j hj => hprev (j + 1) (by omega)) hi

theorem evalIf_none_truthy (ev : Evaluator) (ns : NS) :
    ∀ (es : List String) (bodies : List (List Node)) (elsf : Unit → String × NS),
      (∀ j (hj1 : j < es.length) (hj2 : j < bodies.length),
          (ev.evalExpr (es.get ⟨j, hj1⟩) ns).truthy = false) →
      evalIf ev es bodies elsf ns = elsf () := by
  intro es
  induction es with
  | nil => intro bodies elsf _; cases bodies <;> rfl
  | cons e es ih =>
      intro bodies elsf hall
      cases bodies with
      | nil => rfl
      | cons b bodies =>
          have h0 : (ev.evalExpr e ns).truthy = false :=
            hall 0 (by simp) (by simp)
          simp only [evalIf, h0, Bool.false_eq_true, if_false]
          exact ih bodies elsf
            (fun j hj1 hj2 => hall (j + 1) (by simpa using hj1) (by simpa using hj2))

/-- C3: `Conditional.evaluate` tests the branch conditions in declaration
order and returns exactly the evaluation of the body of the first branch
whose condition is truthy; when no condition is truthy it returns the
evaluation of the else-body (the empty sequence, evaluating to the empty
string, when no else is present — `elsenodes` defaults to `[]`).
Exactly one body's evaluation is the result. -/
theorem c3_conditional_order (ev : Evaluator) (ns : NS) :
    (∀ (es : List String) (bodies : List (List Node)) (els : List Node)
        (cur : BodyPtr) (i : Nat) (hi1 : i < es.length) (hi2 : i < bodies.length),
        (∀ j (hj : j < i), (ev.evalExpr (es.get ⟨j, by omega⟩) ns).truthy = false) →
        (ev.evalExpr (es.get ⟨i, hi1⟩) ns).truthy = true →
        evalNode ev (.ifBlock es bodies els cur) ns =
          evalList ev (bodies.get ⟨i, hi2⟩) ns) ∧
    (∀ (es : List String) (bodies : List (List Node)) (els : List Node)
        (cur : BodyPtr),
        (∀ j (hj1 : j < es.length) (hj2 : j < bodies.length),
            (ev.evalExpr (es.get ⟨j, hj1⟩) ns).truthy = false) →
        evalNode ev (.ifBlock es bodies els cur) ns = evalList ev els ns) := by
  constructor
  · intro es bodies els cur i hi1 hi2 hprev hi
    show evalIf ev es bodies _ ns = _
    exact evalIf_first_truthy ev ns es bodies _ i hi1 hi2 hprev hi
  · intro es bodies els cur hall
    show evalIf ev es bodies _ ns = _
    exact evalIf_none_truthy ev ns es bodies _ hall

/-- C3 witness: for `{% if a %}A{% elif b %}B{% else %}E{% end %}` under
a namespace where `a` is falsy and `b` truthy, evaluation returns exactly
branch body `B`'s evaluation; under a namespace where both are falsy it
returns the else-body `E`'s evaluation. -/
theorem c3_witness :
    (evalNode testEv
        (.ifBlock ["a", "b"] [[.text "A"], [.text "B"]] [.text "E"] .els)
        [("b", Value.int 1)] =
      evalList testEv [.text "B"] [("b", Value.int 1)]) ∧
    (evalNode testEv
        (.ifBlock ["a", "b"] [[.text "A"], [.text "B"]] [.text "E"] .els)
        [] =
      evalList testEv [.text "E"] []) := by
  constructor
  · exact (c3_conditional_order testEv [("b", Value.int 1)]).1
      ["a", "b"] [[.text "A"], [.text "B"]] [.text "E"] .els 1
      (by decide) (by decide)
      (fun j hj => by
        match j, hj with
        | 0, _ => rfl)
      (by rfl)
  · exact (c3_conditional_order testEv []).2
      ["a", "b"] [[.text "A"], [.text "B"]] [.text "E"] .els
      (fun j hj1 hj2 => by
        match j, hj1 with
        | 0, _ => rfl
        | 1, _ => rfl)

/-- C10: `Template.evaluate` merges the keyword arguments last, so a
keyword argument's value overrides both the default namespace and the
caller-supplied mapping; concretely `{{ x }}` rendered with namespace
`x = 1` and keyword `x = 2` yields `2`. -/
theorem c10_kwds_override (ev : Evaluator) (t : Tmpl) (ns kwds : NS) :
    (Template.evaluate ev t ns kwds =
      (evalList ev t.childnodes
        (NS.update (NS.update t.defaultNamespace ns) kwds)).1) ∧
    (∀ k v, NS.get kwds k = some v →
      NS.get (NS.update (NS.update t.defaultNamespace ns) kwds) k = some v) ∧
    ((Template.init testEv "\x7b\x7b x \x7d\x7d").map (fun t0 =>
      Template.evaluate testEv t0 [("x", Value.int 1)] [("x", Value.int 2)]) =
        .ok "2") := by
  refine ⟨rfl, ?_, by rfl⟩
  intro k v hk
  show NS.get (_ ++ kwds) k = some v
  rw [NS.get_append, hk]
  rfl

/-- C10 witness: with default namespace empty, caller namespace `x = 1`
and keyword namespace `x = 2`, the merged render namespace maps `x`
to `2`. -/
theorem c10_witness :
    NS.get (NS.update (NS.update ([] : NS) [("x", Value.int 1)])
      [("x", Value.int 2)]) "x" = some (Value.int 2) :=
  (c10_kwds_override testEv ⟨[], [], none⟩ [("x", Value.int 1)]
    [("x", Value.int 2)]).2.1 "x" (Value.int 2) rfl

/-- Where `handle_block` can touch the encoding: every successful call
either returns normally with the encoding unchanged, or raises the
`EncodingDetected` signal — and the latter only from a state whose
encoding slot is still falsy (`None` or empty). -/
theorem handleBlock_encoding (ev : Evaluator) (st : HState) (expr : String)
    (r : HandleRes) (h : handleBlock ev st expr = .ok r) :
    (∃ st', r = .normal st' ∧ st'.encoding = st.encoding) ∨
    (encodingFalsy st.encoding = true ∧
      ∃ st' enc, r = .detected st' enc ∧ st'.encoding = some enc) := by
  unfold handleBlock at h
  match hsp : splitFirstWord expr with
  | none => rw [hsp] at h; cases h
  | some (tagname, params) =>
      rw [hsp] at h
      dsimp only at h
      by_cases h1 : tagname = "end"
      · rw [if_pos h1] at h
        match hst : st.stack with
        | [] =>
            rw [hst] at h
            dsimp only at h
            by_cases hr : st.rootOnStack = true
            · simp only [hr, if_true] at h
              cases h
              exact .inl ⟨_, rfl, rfl⟩
            · simp only [hr, if_false] at h
              cases h
        | f :: rest =>
            rw [hst] at h
            dsimp only at h
            match happ : HState.append { st with stack := rest } f.toNode with
            | .error e => rw [happ] at h; dsimp only at h; cases h
            | .ok st1 =>
                rw [happ] at h
                dsimp only at h
                have hpres := HState.append_preserves _ _ _ happ
                obtain ⟨fk, fch⟩ := f
                cases fk with
                | ifK es done inElse =>
                    cases h
                    exact .inl ⟨_, rfl, hpres.2.1⟩
                | forK e =>
                    cases h
                    exact .inl ⟨_, rfl, hpres.2.1⟩
                | execK =>
                    cases h
                    exact .inl ⟨_, rfl, hpres.2.1⟩
                | encodingK =>
                    by_cases hf : encodingFalsy st1.encoding = true
                    · simp only [hf, if_true] at h
                      cases h
                      exact .inr ⟨by rw [← hpres.2.1]; exact hf, _, _, rfl, rfl⟩
                    · simp only [hf, if_false] at h
                      cases h
                      exact .inl ⟨_, rfl, hpres.2.1⟩
      · rw [if_neg h1] at h
        by_cases h2 : tagname = "if"
        · rw [if_pos h2] at h; cases h; exact .inl ⟨_, rfl, rfl⟩
        · rw [if_neg h2] at h
          by_cases h3 : tagname = "elif"
          · rw [if_pos h3] at h
            match hst : st.stack with
            | [] =>
                rw [hst] at h
                dsimp only at h
                by_cases hr : st.rootOnStack = true <;>
                  simp only [hr, if_true, if_false] at h <;> cases h
            | ⟨.ifK es done inElse, cs⟩ :: rest =>
                rw [hst] at h
                dsimp only at h
                by_cases hin : inElse = true
                · simp only [hin, if_true] at h; cases h
                · simp only [hin, if_false] at h; cases h
                  exact .inl ⟨_, rfl, rfl⟩
            | ⟨.forK e, cs⟩ :: rest => rw [hst] at h; dsimp only at h; cases h
            | ⟨.execK, cs⟩ :: rest => rw [hst] at h; dsimp only at h; cases h
            | ⟨.encodingK, cs⟩ :: rest => rw [hst] at h; dsimp only at h; cases h
          · rw [if_neg h3] at h
            by_cases h4 : tagname = "else"
            · rw [if_pos h4] at h
              match hst : st.stack with
              | [] =>
                  rw [hst] at h
                  dsimp only at h
                  by_cases hr : st.rootOnStack = true <;>
                    simp only [hr, if_true, if_false] at h <;> cases h
              | ⟨.ifK es done inElse, cs⟩ :: rest =>
                  rw [hst] at h
                  dsimp only at h
                  by_cases hin : inElse = true
                  · simp only [hin, if_true] at h; cases h
                  · simp only [hin, if_false] at h; cases h
                    exact .inl ⟨_, rfl, rfl⟩
              | ⟨.forK e, cs⟩ :: rest => rw [hst] at h; dsimp only at h; cases h
              | ⟨.execK, cs⟩ :: rest => rw [hst] at h; dsimp only at h; cases h
              | ⟨.encodingK, cs⟩ :: rest => rw [hst] at h; dsimp only at h; cases h
            · rw [if_neg h4] at h
              by_cases h5 : tagname = "for"
              · rw [if_pos h5] at h; cases h; exact .inl ⟨_, rfl, rfl⟩
              · rw [if_neg h5] at h
                by_cases h6 : tagname = "exec"
                · rw [if_pos h6] at h; cases h; exact .inl ⟨_, rfl, rfl⟩
                · rw [if_neg h6] at h
                  by_cases h7 : tagname = "encoding"
                  · rw [if_pos h7] at h; cases h; exact .inl ⟨_, rfl, rfl⟩
                  · rw [if_neg h7] at h; cases h

set_option maxHeartbeats 4000000 in
/-- C6: the encoding is set at most once.  (1) Once the encoding slot
holds a truthy (nonempty) name, no handler call changes it or raises the
restart signal again — every later encoding block is ignored.  (2) While
the slot is still falsy, closing an encoding block records the trimmed
body text (evaluated against an empty namespace) and raises the restart
signal.  (3) Concretely, a template with two encoding blocks keeps the
first declared name. -/
theorem c6_encoding_single_trigger :
    (∀ (ev : Evaluator) (st : HState) (name expr : String) (r : HandleRes)
        (e0 : String),
        st.encoding = some e0 → e0 ≠ "" →
        handleToken ev st name expr = .ok r →
        ∃ st', r = .normal st' ∧ st'.encoding = some e0) ∧
    (∀ (ev : Evaluator) (st : HState) (f : Frame) (rest : List Frame)
        (r : HandleRes),
        st.stack = f :: rest → f.kind = .encodingK →
        encodingFalsy st.encoding = true →
        handleBlock ev st "end" = .ok r →
        ∃ st', r = .detected st' (pyStrip (evalList ev f.children []).1) ∧
          st'.encoding = some (pyStrip (evalList ev f.children []).1)) ∧
    ((Template.init testEv
        "\x7b% encoding %\x7dutf-8\x7b% end %\x7d\x7b% encoding %\x7dascii\x7b% end %\x7d").map
      (fun t => t.encoding) = .ok (some "utf-8")) := by
  refine ⟨?_, ?_, by rfl⟩
  · intro ev st name expr r e0 henc hne h
    unfold handleToken at h
    by_cases hn1 : name = "block"
    · rw [if_pos hn1] at h
      rcases handleBlock_encoding ev st expr r h with
        ⟨st', hr, he⟩ | ⟨hfal, _, _, _, _⟩
      · exact ⟨st', hr, by rw [he, henc]⟩
      · rw [henc] at hfal
        simp only [encodingFalsy, beq_iff_eq] at hfal
        exact absurd hfal hne
    · rw [if_neg hn1] at h
      by_cases hn2 : name = "variable"
      · rw [if_pos hn2] at h
        match happ : HState.append st (.var expr) with
        | .error e => rw [happ] at h; dsimp only at h; cases h
        | .ok st' =>
            rw [happ] at h
            dsimp only at h
            cases h
            exact ⟨st', rfl, by
              rw [(HState.append_preserves _ _ _ happ).2.1, henc]⟩
      · rw [if_neg hn2] at h
        by_cases hn3 : name = "comment"
        · rw [if_pos hn3] at h
          cases h
          exact ⟨st, rfl, henc⟩
        · rw [if_neg hn3] at h
          match happ : HState.append st (.text (stripEscapes expr)) with
          | .error e => rw [happ] at h; dsimp only at h; cases h
          | .ok st' =>
              rw [happ] at h
              dsimp only at h
              cases h
              exact ⟨st', rfl, by
                rw [(HState.append_preserves _ _ _ happ).2.1, henc]⟩
  · intro ev st f rest r hst hk hfal h
    unfold handleBlock at h
    rw [show splitFirstWord "end" = some ("end", "") from rfl] at h
    dsimp only at h
    rw [hst] at h
    dsimp only at h
    match happ : HState.append { st with stack := rest } f.toNode with
    | .error e => rw [happ] at h; dsimp only at h; cases h
    | .ok st1 =>
        rw [happ] at h
        dsimp only at h
        have hpres := HState.append_preserves _ _ _ happ
        obtain ⟨fk, fch⟩ := f
        cases hk
        have hf1 : encodingFalsy st1.encoding = true := by
          rw [hpres.2.1]; exact hfal
        rw [hf1] at h
        dsimp only at h
        cases h
        exact ⟨_, rfl, rfl⟩

/-- C6 witness: with the encoding already recorded as `utf-8`, closing a
second encoding block (body `ascii`) returns normally and keeps `utf-8`;
from a falsy state, closing the first encoding block (body `utf-8`)
raises the signal and records `utf-8`. -/
theorem c6_witness :
    (∃ st', HandleRes.normal
        ⟨[.encodingBlock [.text "ascii"]], [], some "utf-8", [], true⟩ =
          .normal st' ∧ st'.encoding = some "utf-8") ∧
    (∃ st', HandleRes.detected
        ⟨[.encodingBlock [.text "utf-8"]], [], some "utf-8", [], true⟩
          "utf-8" =
          .detected st' (pyStrip (evalList testEv [.text "utf-8"] []).1) ∧
      st'.encoding = some (pyStrip (evalList testEv [.text "utf-8"] []).1)) :=
  ⟨c6_encoding_single_trigger.1 testEv
      ⟨[], [], some "utf-8", [⟨.encodingK, [.text "ascii"]⟩], true⟩
      "block" "end" _ "utf-8" rfl (by decide) rfl,
    c6_encoding_single_trigger.2.1 testEv
      ⟨[], [], none, [⟨.encodingK, [.text "utf-8"]⟩], true⟩
      ⟨.encodingK, [.text "utf-8"]⟩ [] _ rfl rfl rfl rfl⟩

/-- C4 witness: popping an open exec frame with body text `ns_var = 5`
from the stack on `end` returns normally with the root namespace updated
by running that body. -/
theorem c4_witness :
    ∃ st', HandleRes.normal
        ⟨[.execBlock [.text "ns_var = 5"]], [("ns_var", Value.int 5)],
          none, [], true⟩ = .normal st' ∧
      st'.rootNamespace =
        ExecBlock.execute testEv [.text "ns_var = 5"] [] :=
  c4_exec_compile_time.1 testEv
    ⟨[], [], none, [⟨.execK, [.text "ns_var = 5"]⟩], true⟩
    ⟨.execK, [.text "ns_var = 5"]⟩ [] _ rfl rfl rfl

/-- C7: `render` evaluates the root against a merged copy built from the
default namespace with the caller namespace overlaid (a caller binding
wins on collision, otherwise the default's binding shows through), and —
because evaluation never reads the one node field it writes (a
Conditional's `childnodes` pointer) — any two templates that agree up to
those pointers render identically.  Since a render mutates nothing but
those pointers (the namespace it mutates is its own copy), a second
`render` with the same namespace yields the same output. -/
theorem c7_render_idempotent (ev : Evaluator) (t : Tmpl) (ns kwds : NS) :
    (Template.evaluateFull ev t ns kwds =
      evalList ev t.childnodes
        (NS.update (NS.update t.defaultNamespace ns) kwds)) ∧
    (∀ k, NS.get (NS.update t.defaultNamespace ns) k =
      optOr (NS.get ns k) (NS.get t.defaultNamespace k)) ∧
    (∀ t' : Tmpl, eraseL t'.childnodes = eraseL t.childnodes →
      t'.defaultNamespace = t.defaultNamespace →
      Template.evaluate ev t' ns kwds = Template.evaluate ev t ns kwds) := by
  refine ⟨rfl, fun k => NS.get_append _ _ _, ?_⟩
  intro t' hchild hns
  show (Template.evaluateFull ev t' ns kwds).1 =
    (Template.evaluateFull ev t ns kwds).1
  unfold Template.evaluateFull
  rw [hns, ← evalList_erase ev t'.childnodes, hchild, evalList_erase]

/-- C7 witness: the template `{% if x %}Y{% else %}N{% end %}` straight
out of the parser (pointer at branch 0) and the same template after a
render under a falsy `x` (pointer at the else-body) render identically
under `x = 1`. -/
theorem c7_witness :
    Template.evaluate testEv
        ⟨[.ifBlock ["x"] [[.text "Y"]] [.text "N"] .els], [], none⟩
        [("x", Value.int 1)] [] =
      Template.evaluate testEv
        ⟨[.ifBlock ["x"] [[.text "Y"]] [.text "N"] (.branch 0)], [], none⟩
        [("x", Value.int 1)] [] :=
  (c7_render_idempotent testEv
      ⟨[.ifBlock ["x"] [[.text "Y"]] [.text "N"] (.branch 0)], [], none⟩
      [("x", Value.int 1)] []).2.2
    ⟨[.ifBlock ["x"] [[.text "Y"]] [.text "N"] .els], [], none⟩ rfl rfl

/-- C9 amended: an `elif` or `else` directive after the Conditional's
else-body has been entered is rejected at compile time with
`TextTemplateError('else_() has already been called')` (not an error of
the `TemplateSyntaxError` kind); an `elif`/`else` whose innermost open
block is not a Conditional — another open block kind, or only the root —
is a compile-time `TemplateSyntaxError('invalid syntax')`. -/
theorem c9_nesting_errors :
    (∀ (ev : Evaluator) (st : HState) (expr tagname params : String)
        (es : List String) (done : List (List Node)) (cs : List Node)
        (rest : List Frame),
        splitFirstWord expr = some (tagname, params) →
        (tagname = "elif" ∨ tagname = "else") →
        st.stack = ⟨.ifK es done true, cs⟩ :: rest →
        handleBlock ev st expr =
          .error (.textTemplateError "else_() has already been called")) ∧
    (∀ (ev : Evaluator) (st : HState) (expr tagname params : String)
        (f : Frame) (rest : List Frame),
        splitFirstWord expr = some (tagname, params) →
        (tagname = "elif" ∨ tagname = "else") →
        st.stack = f :: rest →
        (∀ es done inElse, f.kind ≠ .ifK es done inElse) →
        handleBlock ev st expr =
          .error (.templateSyntaxError "invalid syntax" none)) ∧
    (∀ (ev : Evaluator) (st : HState) (expr tagname params : String),
        splitFirstWord expr = some (tagname, params) →
        (tagname = "elif" ∨ tagname = "else") →
        st.stack = [] → st.rootOnStack = true →
        handleBlock ev st expr =
          .error (.templateSyntaxError "invalid syntax" none)) := by
  refine ⟨?_, ?_, ?_⟩
  · intro ev st expr tagname params es done cs rest hsp htag hst
    unfold handleBlock
    rw [hsp]
    dsimp only
    rcases htag with rfl | rfl
    · rw [if_neg (by decide), if_neg (by decide), if_pos rfl, hst]
      dsimp only
      rw [if_pos rfl]
    · rw [if_neg (by decide), if_neg (by decide), if_neg (by decide),
        if_pos rfl, hst]
      dsimp only
      rw [if_pos rfl]
  · intro ev st expr tagname params f rest hsp htag hst hne
    unfold handleBlock
    rw [hsp]
    dsimp only
    obtain ⟨fk, fch⟩ := f
    rcases htag with rfl | rfl
    · rw [if_neg (by decide), if_neg (by decide), if_pos rfl, hst]
      cases fk with
      | ifK es done inElse => exact absurd rfl (hne es done inElse)
      | forK e => dsimp only
      | execK => dsimp only
      | encodingK => dsimp only
    · rw [if_neg (by decide), if_neg (by decide), if_neg (by decide),
        if_pos rfl, hst]
      cases fk with
      | ifK es done inElse => exact absurd rfl (hne es done inElse)
      | forK e => dsimp only
      | execK => dsimp only
      | encodingK => dsimp only
  · intro ev st expr tagname params hsp htag hst hroot
    unfold handleBlock
    rw [hsp]
    dsimp only
    rcases htag with rfl | rfl
    · rw [if_neg (by decide), if_neg (by decide), if_pos rfl, hst]
      dsimp only
      rw [if_pos hroot]
    · rw [if_neg (by decide), if_neg (by decide), if_neg (by decide),
        if_pos rfl, hst]
      dsimp only
      rw [if_pos hroot]

/-- C9 witness: a second `else` on a Conditional already in its else-body
raises `TextTemplateError`; an `elif` over an open `for` block, and an
`else` with only the root open, raise `TemplateSyntaxError`. -/
theorem c9_witness :
    (handleBlock testEv ⟨[], [], none, [⟨.ifK ["a"] [[]] true, []⟩], true⟩
        "else" =
      .error (.textTemplateError "else_() has already been called")) ∧
    (handleBlock testEv ⟨[], [], none, [⟨.forK "x in y", []⟩], true⟩
        "elif b" =
      .error (.templateSyntaxError "invalid syntax" none)) ∧
    (handleBlock testEv ⟨[], [], none, [], true⟩ "else" =
      .error (.templateSyntaxError "invalid syntax" none)) :=
  ⟨c9_nesting_errors.1 testEv _ "else" "else" "" ["a"] [[]] [] [] rfl
      (Or.inr rfl) rfl,
    c9_nesting_errors.2.1 testEv _ "elif b" "elif" "b" ⟨.forK "x in y", []⟩
      [] rfl (Or.inl rfl) rfl
      (fun _ _ _ h => FrameKind.noConfusion h),
    c9_nesting_errors.2.2 testEv _ "else" "else" "" rfl (Or.inr rfl) rfl rfl⟩

theorem findSubAux_none (pat : List Char) (hpat : pat ≠ []) (data : List Char) :
    ∀ (cs : List Char) (i : Nat), cs = data.drop i →
      findSubAux pat cs i = none →
      ∀ j, i ≤ j → pat.isPrefixOf (data.drop j) = false := by
  intro cs
  induction cs with
  | nil =>
      intro i hcs _ j hij
      have hlen : data.length ≤ i := by
        have hl := congrArg List.length hcs
        simp only [List.length_nil, List.length_drop] at hl
        omega
      rw [List.drop_eq_nil_of_le (le_trans hlen hij)]
      cases pat with
      | nil => exact absurd rfl hpat
      | cons a l => rfl
  | cons c rest ih =>
      intro i hcs hfind j hij
      unfold findSubAux at hfind
      by_cases hpre : pat.isPrefixOf (c :: rest) = true
      · rw [if_pos hpre] at hfind; cases hfind
      · rw [if_neg hpre] at hfind
        have hrest : rest = data.drop (i + 1) := by
          have h1 : List.drop 1 (data.drop i) = List.drop 1 (c :: rest) :=
            congrArg (List.drop 1) hcs.symm
          simpa [List.drop_drop, Nat.add_comm] using h1.symm
        rcases Nat.eq_or_lt_of_le hij with rfl | hlt
        · rw [← hcs]
          exact Bool.not_eq_true _ ▸ (by simpa using hpre)
        · exact ih (i + 1) hrest hfind j hlt

theorem findSubAux_some (pat : List Char) (data : List Char) :
    ∀ (cs : List Char) (i k : Nat), cs = data.drop i →
      findSubAux pat cs i = some k →
      i ≤ k ∧ pat.isPrefixOf (data.drop k) = true ∧
        ∀ j, i ≤ j → j < k → pat.isPrefixOf (data.drop j) = false := by
  intro cs
  induction cs with
  | nil =>
      intro i k hcs hfind
      unfold findSubAux at hfind
      by_cases hpre : pat.isPrefixOf [] = true
      · rw [if_pos hpre] at hfind
        cases hfind
        exact ⟨le_refl _, by rw [← hcs]; exact hpre, fun j h1 h2 => by omega⟩
      · rw [if_neg hpre] at hfind; cases hfind
  | cons c rest ih =>
      intro i k hcs hfind
      unfold findSubAux at hfind
      by_cases hpre : pat.isPrefixOf (c :: rest) = true
      · rw [if_pos hpre] at hfind
        cases hfind
        exact ⟨le_refl _, by rw [← hcs]; exact hpre, fun j h1 h2 => by omega⟩
      · rw [if_neg hpre] at hfind
        have hrest : rest = data.drop (i + 1) := by
          have h1 : List.drop 1 (data.drop i) = List.drop 1 (c :: rest) :=
            congrArg (List.drop 1) hcs.symm
          simpa [List.drop_drop, Nat.add_comm] using h1.symm
        obtain ⟨hk1, hk2, hk3⟩ := ih (i + 1) k hrest hfind
        refine ⟨by omega, hk2, fun j h1 h2 => ?_⟩
        rcases Nat.eq_or_lt_of_le h1 with rfl | hlt
        · rw [← hcs]
          exact Bool.not_eq_true _ ▸ (by simpa using hpre)
        · exact hk3 j hlt h2

/-- `data.index(pat, start)` found nothing: no occurrence at or after
`start`. -/
theorem indexFrom_none (data pat : String) (hpat : pat.toList ≠ [])
    (start : Nat) (h : indexFrom data pat start = none) :
    ∀ j, start ≤ j → matchesAt data pat j = false :=
  findSubAux_none pat.toList hpat data.toList _ start rfl h

/-- `data.index(pat, start) = k`: `k` is the first occurrence at or after
`start`. -/
theorem indexFrom_some (data pat : String) (start k : Nat)
    (h : indexFrom data pat start = some k) :
    start ≤ k ∧ matchesAt data pat k = true ∧
      ∀ j, start ≤ j → j < k → matchesAt data pat j = false :=
  findSubAux_some pat.toList data.toList _ start k rfl h

/-- Two distinct two-character tag markers sharing their first character
cannot both match at one position. -/
theorem matchesAt_excl (data : String) (pos : Nat) (p q : String)
    (a b c : Char) (hp : p.toList = [a, b]) (hq : q.toList = [a, c])
    (hbc : b ≠ c) (h : matchesAt data p pos = true) :
    matchesAt data q pos = false := by
  unfold matchesAt at h ⊢
  rw [hp] at h
  rw [hq]
  cases hd : data.toList.drop pos with
  | nil => rw [hd] at h; simp [List.isPrefixOf] at h
  | cons x xs =>
      rw [hd] at h
      cases xs with
      | nil => simp [List.isPrefixOf] at h
      | cons y ys =>
          simp only [List.isPrefixOf, Bool.and_eq_true, beq_iff_eq] at h
          obtain ⟨rfl, rfl, -⟩ := h
          simp [List.isPrefixOf]
          exact fun h => absurd h.symm hbc

/-- C8 amended: at a position where one of the three tag opening markers
begins, the tokenizer emits that family's token whose expression is the
text strictly between the markers (trimmed), taking as closing marker the
first occurrence of the family's closing marker located at or after the
*start* of the opening marker — so a closing marker overlapping the
opening marker's second character is taken — and advances past it; when
the closing marker occurs nowhere at or after that position, it raises
`TemplateSyntaxError` carrying the total input length as its position. -/
theorem c8_tokenizer_amended (data : String) (pos : Nat)
    (name stag etag : String) (hmem : (name, stag, etag) ∈ tagset)
    (hmatch : matchesAt data stag pos = true) :
    ((∀ j, pos ≤ j → matchesAt data etag j = false) →
      tokStep data pos =
        .error (.templateSyntaxError "invalid syntax" (some data.length))) ∧
    (∀ i, pos ≤ i → matchesAt data etag i = true →
      (∀ j, pos ≤ j → j < i → matchesAt data etag j = false) →
      tokStep data pos =
        .ok (name, pyStrip (strSub data (pos + stag.length) i),
          i + etag.length)) := by
  have hdisp : tokStep data pos = tagToken data pos name stag etag := by
    simp only [tagset, List.mem_cons, List.not_mem_nil, or_false,
      Prod.mk.injEq] at hmem
    rcases hmem with ⟨rfl, rfl, rfl⟩ | ⟨rfl, rfl, rfl⟩ | ⟨rfl, rfl, rfl⟩
    · unfold tokStep
      rw [if_pos hmatch]
    · have h1 : matchesAt data "\x7b%" pos = false :=
        matchesAt_excl data pos "\x7b\x7b" "\x7b%" '{' '{' '%' rfl rfl (by decide)
          hmatch
      unfold tokStep
      rw [if_neg (by rw [h1]; exact Bool.false_ne_true), if_pos hmatch]
    · have h1 : matchesAt data "\x7b%" pos = false :=
        matchesAt_excl data pos "\x7b#" "\x7b%" '{' '#' '%' rfl rfl (by decide)
          hmatch
      have h2 : matchesAt data "\x7b\x7b" pos = false :=
        matchesAt_excl data pos "\x7b#" "\x7b\x7b" '{' '#' '{' rfl rfl (by decide)
          hmatch
      unfold tokStep
      rw [if_neg (by rw [h1]; exact Bool.false_ne_true),
        if_neg (by rw [h2]; exact Bool.false_ne_true), if_pos hmatch]
  have hpat : etag.toList ≠ [] := by
    simp only [tagset, List.mem_cons, List.not_mem_nil, or_false,
      Prod.mk.injEq] at hmem
    rcases hmem with ⟨-, -, rfl⟩ | ⟨-, -, rfl⟩ | ⟨-, -, rfl⟩ <;> decide
  constructor
  · intro hnone
    rw [hdisp]
    unfold tagToken
    have hidx : indexFrom data etag pos = none := by
      match hq : indexFrom data etag pos with
      | none => rfl
      | some k =>
          obtain ⟨hk1, hk2, -⟩ := indexFrom_some data etag pos k hq
          rw [hnone k hk1] at hk2
          cases hk2
    rw [hidx]
  · intro i hpi hi hleast
    rw [hdisp]
    unfold tagToken
    have hidx : indexFrom data etag pos = some i := by
      match hq : indexFrom data etag pos with
      | none =>
          have hc := indexFrom_none data etag hpat pos hq i hpi
          rw [hi] at hc
          cases hc
      | some k =>
          obtain ⟨hk1, hk2, hk3⟩ := indexFrom_some data etag pos k hq
          have hki : k = i := by
            rcases Nat.lt_trichotomy k i with hlt | rfl | hgt
            · rw [hleast k hk1 hlt] at hk2; cases hk2
            · rfl
            · rw [hk3 i hpi hgt] at hi; cases hi
          rw [hki]
    rw [hidx]
    dsimp only
    rw [Nat.add_sub_cancel]

/-- C8 witness: in `a{{ x }}b` the variable marker at position 1 is
closed first at position 6, giving the token `("variable", "x")` ending
at 8; in `{{ x` the closing marker occurs nowhere, giving the fatal
syntax error with the input length as position. -/
theorem c8_witness :
    tokStep "a\x7b\x7b x \x7d\x7db" 1 =
      .ok ("variable", pyStrip (strSub "a\x7b\x7b x \x7d\x7db" (1 + "\x7b\x7b".length) 6),
        6 + "\x7d\x7d".length) ∧
    tokStep "\x7b\x7b x" 0 =
      .error (.templateSyntaxError "invalid syntax" (some "\x7b\x7b x".length)) :=
  ⟨(c8_tokenizer_amended "a\x7b\x7b x \x7d\x7db" 1 "variable" "\x7b\x7b" "\x7d\x7d" (by decide)
      rfl).2 6 (by decide) rfl
      (fun j h1 h2 => by interval_cases j <;> rfl),
    (c8_tokenizer_amended "\x7b\x7b x" 0 "variable" "\x7b\x7b" "\x7d\x7d" (by decide) rfl).1
      (fun j _ => by
        match j with
        | 0 => rfl
        | 1 => rfl
        | 2 => rfl
        | 3 => rfl
        | n + 4 =>
            show List.isPrefixOf _ _ = false
            rw [List.drop_eq_nil_of_le (by
              have h4 : "\x7b\x7b x".toList.length = 4 := rfl
              omega)]
            rfl)⟩
